import Mathlib

/-!
Verification of the Endpoint-to-Tool Adapter (`registerGraphTools`) of the
ms-365-mcp-server repository, against its natural-language specification.

The adapter is shallowly embedded: JSON documents become the inductive `JVal`,
JavaScript objects used as string-keyed records become association lists with
unique keys, the transport client (`graphClient.graphRequest`) becomes an
opaque function parameter returning `Except` (a thrown exception is `.error`),
and the tool handler (the async closure registered per endpoint) becomes the
total function `runTool`.
-/

set_option maxRecDepth 4096

/-- A JSON value, as produced by `JSON.parse` and consumed by `JSON.stringify`.
Object field lists model JavaScript objects, whose keys are unique. -/
inductive JVal where
  | null : JVal
  | bool (b : Bool) : JVal
  | num (n : Int) : JVal
  | str (s : String) : JVal
  | arr (elems : List JVal) : JVal
  | obj (fields : List (String × JVal)) : JVal

/-- JavaScript truthiness of a JSON value (`if (x)`, `x || y`, `while (x)`). -/
def jsTruthy : JVal → Bool
  | .null => false
  | .bool b => b
  | .num n => n != 0
  | .str s => s != ""
  | .arr _ => true
  | .obj _ => true

/-- Models `Array.isArray`. -/
def jsIsArray : JVal → Bool
  | .arr _ => true
  | _ => false

mutual

/-- JavaScript `String(x)` / template-literal coercion of a JSON value. -/
def jsToStr : JVal → String
  | .null => "null"
  | .bool true => "true"
  | .bool false => "false"
  | .num n => toString n
  | .str s => s
  | .arr es => jsJoinComma es
  | .obj _ => "[object Object]"

/-- Models `Array.prototype.join(',')` over the string coercions of the elements
(`null` elements coerce to the empty string inside a join). -/
def jsJoinComma : List JVal → String
  | [] => ""
  | [e] => jsJoinElem e
  | e :: es => jsJoinElem e ++ "," ++ jsJoinComma es

/-- Element coercion used by `Array.prototype.join`. -/
def jsJoinElem : JVal → String
  | .null => ""
  | .bool true => "true"
  | .bool false => "false"
  | .num n => toString n
  | .str s => s
  | .arr es => jsJoinComma es
  | .obj _ => "[object Object]"

end

/-- String-keyed record (JavaScript object whose keys are unique):
`r[k] = v` — replace the value under an existing key, else append. -/
def recordSet (r : List (String × α)) (k : String) (v : α) : List (String × α) :=
  if r.any (fun kv => kv.1 == k) then
    r.map (fun kv => if kv.1 == k then (k, v) else kv)
  else r ++ [(k, v)]

/-- Models `delete r[k]`. -/
def recordDelete (r : List (String × α)) (k : String) : List (String × α) :=
  r.filter (fun kv => kv.1 ≠ k)

/-- Models `Object.keys(r)`. -/
def recordKeys (r : List (String × α)) : List String :=
  r.map (fun kv => kv.1)

/-- Models `r[k]` as an optional lookup (`none` models `undefined`). -/
def recordGet (r : List (String × α)) (k : String) : Option α :=
  (r.find? (fun kv => kv.1 == k)).map (fun kv => kv.2)

/-- Property read `v[k]` on a JSON value; non-objects have none of the
properties the adapter reads (`value`, `@odata.nextLink`, `@odata.count`). -/
def jsGetField : JVal → String → Option JVal
  | .obj fs, k => recordGet fs k
  | _, _ => none

/-- Property write `v[k] = x` in strict-mode JavaScript: updates an object;
on an array it sets a non-index property, which `JSON.stringify` ignores, so
for our stringify-level semantics the array is unchanged; on a primitive it
throws a `TypeError`. -/
def jsSetField : JVal → String → JVal → Except String JVal
  | .obj fs, k, x => .ok (.obj (recordSet fs k x))
  | .arr es, _, _ => .ok (.arr es)
  | _, _, _ => .error "TypeError: cannot create property on primitive"

/-- Property delete `delete v[k]` (no-op except on objects). -/
def jsDeleteField : JVal → String → JVal
  | .obj fs, k => .obj (recordDelete fs k)
  | v, _ => v

/-- Models `x.length` (`none` models `undefined`). -/
def jsLength : JVal → Option JVal
  | .arr es => some (.num es.length)
  | .str s => some (.num s.length)
  | _ => none

/-- Models `allItems.concat(ys)` where `ys` is an array: array concatenation, string
coercion-concatenation for strings, and a thrown `TypeError` otherwise. -/
def jsConcat : JVal → List JVal → Except String JVal
  | .arr xs, ys => .ok (.arr (xs ++ ys))
  | .str s, ys => .ok (.str (s ++ jsJoinComma ys))
  | _, _ => .error "TypeError: concat is not a function"

/-- One character of a JSON string literal, as emitted by `JSON.stringify`. -/
def jsonEscapeChar (c : Char) : List Char :=
  if c = '"' then ['\\', '"']
  else if c = '\\' then ['\\', '\\']
  else if c = '\n' then ['\\', 'n']
  else if c = '\r' then ['\\', 'r']
  else if c = '\t' then ['\\', 't']
  else if c = '\x08' then ['\\', 'b']
  else if c = '\x0c' then ['\\', 'f']
  else if c.toNat < 0x20 then
    ['\\', 'u', '0', '0',
      (if c.toNat / 16 = 0 then '0' else '1'),
      "0123456789abcdef".data.getD (c.toNat % 16) '0']
  else [c]

/-- Models `JSON.stringify` escaping of the characters of a string literal body. -/
def jsonEscape (s : String) : String :=
  ⟨s.data.foldr (fun c acc => jsonEscapeChar c ++ acc) []⟩

mutual

/-- Models `JSON.stringify` of a JSON value. -/
def jsonStringify : JVal → String
  | .null => "null"
  | .bool true => "true"
  | .bool false => "false"
  | .num n => toString n
  | .str s => "\"" ++ jsonEscape s ++ "\""
  | .arr es => "[" ++ jsonStringifyList es ++ "]"
  | .obj fs => "\x7b" ++ jsonStringifyFields fs ++ "\x7d"

/-- Comma-joined stringification of array elements. -/
def jsonStringifyList : List JVal → String
  | [] => ""
  | [e] => jsonStringify e
  | e :: es => jsonStringify e ++ "," ++ jsonStringifyList es

/-- Comma-joined stringification of object fields. -/
def jsonStringifyFields : List (String × JVal) → String
  | [] => ""
  | [(k, v)] => "\"" ++ jsonEscape k ++ "\":" ++ jsonStringify v
  | (k, v) :: fs => "\"" ++ jsonEscape k ++ "\":" ++ jsonStringify v ++ "," ++ jsonStringifyFields fs

end

/-- The text payload of one transport content item: either a string that does
not parse as JSON, or a string that `JSON.parse` reads as the given value
(and that `JSON.stringify` produces from it). -/
inductive RespText where
  | raw (s : String) : RespText
  | json (v : JVal) : RespText

/-- The concrete string carried by a content item. -/
def stringifyText : RespText → String
  | .raw s => s
  | .json v => jsonStringify v

/-- Models `JSON.parse` on a content item's text; a thrown `SyntaxError` is `.error`. -/
def jsonParse : RespText → Except String JVal
  | .raw _ => .error "SyntaxError: Unexpected token"
  | .json v => .ok v

/-- Characters `encodeURIComponent` leaves unescaped. -/
def uriUnreserved (c : Char) : Bool :=
  c.isAlphanum || c = '-' || c = '_' || c = '.' || c = '!' || c = '~' ||
    c = '*' || c = '\'' || c = '(' || c = ')'

/-- Uppercase hexadecimal digit. -/
def hexDigit (n : Nat) : Char :=
  "0123456789ABCDEF".data.getD n '0'

/-- UTF-8 bytes of a character (surrogates cannot occur in `Char`). -/
def utf8Bytes (c : Char) : List Nat :=
  let n := c.toNat
  if n < 0x80 then [n]
  else if n < 0x800 then [0xC0 + n / 64, 0x80 + n % 64]
  else if n < 0x10000 then [0xE0 + n / 4096, 0x80 + n / 64 % 64, 0x80 + n % 64]
  else [0xF0 + n / 262144, 0x80 + n / 4096 % 64, 0x80 + n / 64 % 64, 0x80 + n % 64]

/-- Models `encodeURIComponent` on one character. -/
def encChar (c : Char) : List Char :=
  if uriUnreserved c then [c]
  else (utf8Bytes c).foldr (fun b acc => '%' :: hexDigit (b / 16) :: hexDigit (b % 16) :: acc) []

/-- Models `encodeURIComponent`. -/
def encodeURIComponent (s : String) : String :=
  ⟨s.data.foldr (fun c acc => encChar c ++ acc) []⟩

/-- First-occurrence replacement over character lists, the semantics of
JavaScript `String.prototype.replace` with a string pattern. -/
def replaceFirstL (s pat rep : List Char) : List Char :=
  match s with
  | [] => []
  | c :: rest =>
    if pat.isPrefixOf (c :: rest) then rep ++ (c :: rest).drop pat.length
    else c :: replaceFirstL rest pat rep

/-- JavaScript `s.replace(pat, rep)` for a nonempty string pattern. -/
def jsReplaceFirst (s pat rep : String) : String :=
  ⟨replaceFirstL s.data pat.data rep.data⟩

/-- ASCII upper-casing, the behavior of `toUpperCase` on HTTP method names. -/
def jsToUpperCase (s : String) : String :=
  ⟨s.data.map Char.toUpper⟩

/-- ASCII lower-casing, the behavior of `toLowerCase` on parameter names. -/
def jsToLowerCase (s : String) : String :=
  ⟨s.data.map Char.toLower⟩

/-- Models `s.includes(c)` for a single-character search string. -/
def strContainsChar (s : String) (c : Char) : Bool :=
  s.data.contains c

/-- Models `s.endsWith(t)`. -/
def strEndsWith (s t : String) : Bool :=
  t.data.isSuffixOf s.data

/-- Models `s.startsWith(t)`. -/
def strStartsWith (s t : String) : Bool :=
  t.data.isPrefixOf s.data

/-- Routing class of a declared endpoint parameter (`param.type`). -/
inductive ParamType where
  | path : ParamType
  | query : ParamType
  | body : ParamType
  | header : ParamType
deriving DecidableEq

/-- One declared parameter of an endpoint (`tool.parameters[i]`); `schemaId`
abstracts the attached zod validator (`none` models an absent `param.schema`,
defaulted to `z.any()` at registration). -/
structure ParamDef where
  name : String
  ptype : ParamType
  schemaId : Option Nat := none
deriving DecidableEq

/-- One endpoint descriptor from the generated catalog (`api.endpoints[i]`);
`aliasName` is the symbolic tool name `tool.alias` (`alias` is a Lean
keyword); `errors` holds the descriptions of the declared error responses, used by the
media-content heuristic. -/
structure Tool where
  aliasName : String
  method : String
  path : String
  parameters : List ParamDef := []
  errors : List String := []

/-- Caller-supplied parameters of one invocation (`params`), a JavaScript
object with unique keys. -/
def CallParams := List (String × JVal)

/-- A `ToolSchemaOverride` record (src/tool-schemas.ts). The zod validators of
`schema` are abstracted to numeric tags; the three transform functions may
throw, hence return `Except`. -/
structure Override where
  description : String
  schema : Option (List (String × Nat)) := none
  transform : Option (CallParams → Except String JVal) := none
  queryTransform : Option (CallParams → Except String (List (String × String))) := none
  pathTransform : Option (String → CallParams → Except String String) := none

/-- A validator entry of the effective tool schema (`paramSchema` values). -/
inductive SchemaV where
  | declared (id : Nat) : SchemaV
  | anyV : SchemaV
  | fetchAllPagesV : SchemaV
  | overrideV (id : Nat) : SchemaV
deriving DecidableEq

/-- Names of the Body-classed declared parameters (`bodyParamNames`). -/
def bodyParamNames (tool : Tool) : List String :=
  (tool.parameters.filter (fun p => p.ptype = ParamType.body)).map (fun p => p.name)

/-- Names of the Query-classed declared parameters (`queryParamNames`). -/
def queryParamNames (tool : Tool) : List String :=
  (tool.parameters.filter (fun p => p.ptype = ParamType.query)).map (fun p => p.name)

/-- The effective tool schema built at registration (lines 118-155 of the
adapter): one entry per declared parameter, the `fetchAllPages` flag for
nested GET endpoints, then the override's deletions and schema merge — the
deletions run only when the override carries a `schema` object. -/
def buildParamSchema (tool : Tool) (override : Option Override) : List (String × SchemaV) :=
  let s0 := tool.parameters.foldl
    (fun acc p => recordSet acc p.name
      (match p.schemaId with
       | some i => SchemaV.declared i
       | none => SchemaV.anyV)) []
  let s1 := if jsToUpperCase tool.method = "GET" ∧ strContainsChar tool.path '/' then
      recordSet s0 "fetchAllPages" SchemaV.fetchAllPagesV
    else s0
  match override with
  | some ov =>
    match ov.schema with
    | some sch =>
      let s2 := if ov.transform.isSome then
          recordDelete ((bodyParamNames tool).foldl (fun acc n => recordDelete acc n) s1) "body"
        else s1
      let s3 := if ov.queryTransform.isSome then
          (queryParamNames tool).foldl (fun acc n => recordDelete acc n) s2
        else s2
      sch.foldl (fun acc kv => recordSet acc kv.1 (SchemaV.overrideV kv.2)) s3
    | none => s1
  | none => s1

/-- The fixed restoration set of OData parameter names (`odataParams`). -/
def odataParams : List String :=
  ["filter", "select", "expand", "orderby", "skip", "top", "count", "search", "format"]

/-- Models `fixedParamName`: restore the `$` prefix on restoration-set names. -/
def fixName (n : String) : String :=
  if odataParams.contains (jsToLowerCase n) then "$" ++ jsToLowerCase n else n

/-- Path substitution for one declared Path parameter (lines 231-234):
replace the first occurrence of the `\x7bname\x7d` form, then the first
occurrence of the `:name` form, each by the percent-encoded value. -/
def substPathParam (path n enc : String) : String :=
  jsReplaceFirst (jsReplaceFirst path ("\x7b" ++ n ++ "\x7d") enc) (":" ++ n) enc

/-- In-progress request during per-parameter routing. -/
structure RouteState where
  path : String
  query : List (String × String)
  headers : List (String × String)
  body : JVal

/-- Does the override's schema (when present) own this parameter name
(`overrideParamNames?.has(paramName)`)? -/
def ovOwns (ovNames : Option (List String)) (n : String) : Bool :=
  match ovNames with
  | some ns => ns.contains n
  | none => false

/-- Routing of one `(name, value)` entry of the call parameters (the body of
the `for` loop, lines 202-253): skip the reserved flag and override-owned
names, then dispatch on the declared routing class; an undeclared name sets
the body only when it is literally `body` and no override record exists. -/
def routeStep (defs : List ParamDef) (ovNames : Option (List String))
    (hasOverride : Bool) (st : RouteState) (p : String × JVal) : RouteState :=
  if p.1 = "fetchAllPages" then st
  else if ovOwns ovNames p.1 then st
  else
    let fixed := fixName p.1
    match defs.find? (fun d => d.name == p.1) with
    | some d =>
      match d.ptype with
      | .path =>
        { st with path := substPathParam st.path p.1 (encodeURIComponent (jsToStr p.2)) }
      | .query => { st with query := recordSet st.query fixed (jsToStr p.2) }
      | .body => if hasOverride then st else { st with body := p.2 }
      | .header => { st with headers := recordSet st.headers fixed (jsToStr p.2) }
    | none =>
      if p.1 = "body" ∧ ¬hasOverride then { st with body := p.2 } else st

/-- The whole routing loop over `Object.entries(params)`. -/
def routeAll (defs : List ParamDef) (ovNames : Option (List String))
    (hasOverride : Bool) (st : RouteState) (ps : CallParams) : RouteState :=
  ps.foldl (routeStep defs ovNames hasOverride) st

/-- Request options handed to `graphClient.graphRequest`. -/
structure ReqOptions where
  method : String
  headers : List (String × String)
  body : Option String := none
  rawResponse : Bool := false
  queryParams : Option (List (String × String)) := none

/-- One content item of a transport response (the transport only produces
text items; `text` is the payload read and rewritten by the handler). -/
structure RContent where
  text : RespText

/-- A transport response (`McpResponse`). -/
structure McpResponse where
  content : List RContent
  meta : Option Nat := none
  isError : Option Bool := none

/-- The transport client: a thrown exception is `.error`. -/
def Transport := String → ReqOptions → Except String McpResponse

/-- Split a character list at the first occurrence of `c` (the separator is
dropped; `none` when absent). -/
def splitFirst (l : List Char) (c : Char) : List Char × Option (List Char) :=
  match l with
  | [] => ([], none)
  | x :: xs =>
    if x = c then ([], some xs)
    else
      let r := splitFirst xs c
      (x :: r.1, r.2)

/-- Query-string parsing of `URLSearchParams` iteration: `&`-separated
segments, empty segments skipped, each split at its first `=`. Percent-decoding
is not modelled; the cursor URLs the theorems use carry no percent escapes. -/
def parseQueryPairs (l : List Char) : List (String × String) :=
  ((⟨l⟩ : String).splitOn "&").foldr
    (fun seg acc =>
      if seg = "" then acc
      else
        let p := splitFirst seg.data '='
        (⟨p.1⟩, ⟨p.2.getD []⟩) :: acc) []

/-- Models `new URL(link)` restricted to what the pagination loop reads: `pathname`
and the `searchParams` entries. Only absolute `http(s)` URLs are accepted;
anything else throws a `TypeError`, as the WHATWG constructor does on the
coerced string of an invalid link. -/
def parseUrl (s : String) : Except String (String × List (String × String)) :=
  if ¬ (strStartsWith s "https://" ∨ strStartsWith s "http://") then
    .error "TypeError: Invalid URL"
  else
    let rest := if strStartsWith s "https://" then s.data.drop 8 else s.data.drop 7
    let hostSplit := splitFirst rest '/'
    match hostSplit.2 with
    | none =>
      let qSplit := splitFirst rest '?'
      match qSplit.2 with
      | none => .ok ("/", [])
      | some q => .ok ("/", parseQueryPairs q)
    | some afterHost =>
      let qSplit := splitFirst afterHost '?'
      match qSplit.2 with
      | none => .ok (⟨'/' :: qSplit.1⟩, [])
      | some q => .ok (⟨'/' :: qSplit.1⟩, parseQueryPairs q)

/-- One invocation's pagination loop (`while (nextLink) { ... }`, lines
290-319): follow the cursor, append each follow-up page's `value` array, and
break on a content-free response or once the page counter exceeds 100. -/
def pagLoop (transport : Transport) (options : ReqOptions)
    (nextLink : Option JVal) (allItems : JVal) (pageCount : Nat) :
    Except String (JVal × Nat) :=
  match nextLink with
  | none => .ok (allItems, pageCount)
  | some nl =>
    if ¬ jsTruthy nl then .ok (allItems, pageCount)
    else
      match parseUrl (jsToStr nl) with
      | .error e => .error e
      | .ok (pathname, searchParams) =>
        let nextPath := jsReplaceFirst pathname "/v1.0" ""
        let nextOptions := { options with queryParams := some searchParams }
        match transport nextPath nextOptions with
        | .error e => .error e
        | .ok nextResponse =>
          match nextResponse.content with
          | [] => .ok (allItems, pageCount)
          | item :: _ =>
            match jsonParse item.text with
            | .error e => .error e
            | .ok nextJson =>
              let step : Except String JVal :=
                match jsGetField nextJson "value" with
                | some v =>
                  if jsTruthy v ∧ jsIsArray v then
                    match v with
                    | .arr ys => jsConcat allItems ys
                    | _ => .ok allItems
                  else .ok allItems
                | none => .ok allItems
              match step with
              | .error e => .error e
              | .ok allItems' =>
                let nextLink' := jsGetField nextJson "@odata.nextLink"
                if h : pageCount + 1 > 100 then .ok (allItems', pageCount + 1)
                else pagLoop transport options nextLink' allItems' (pageCount + 1)
termination_by 101 - pageCount
decreasing_by omega

/-- The whole pagination block (the inner `try` body, lines 285-331): parse
the first page, run the loop from page count 1, then merge — set `value` to
the accumulated items, adjust a truthy `@odata.count`, drop the cursor — and
produce the replacement text for the first content item. An `@odata.count`
updated from a length-less accumulator models JavaScript `undefined`
assignment, which `JSON.stringify` omits, as a field delete. -/
def paginate (transport : Transport) (options : ReqOptions) (firstText : RespText) :
    Except String RespText := do
  let combined ← jsonParse firstText
  let allItems :=
    match jsGetField combined "value" with
    | some v => if jsTruthy v then v else JVal.arr []
    | none => JVal.arr []
  let nextLink := jsGetField combined "@odata.nextLink"
  let r ← pagLoop transport options nextLink allItems 1
  let combined1 ← jsSetField combined "value" r.1
  let combined2 ←
    match jsGetField combined1 "@odata.count" with
    | some c =>
      if jsTruthy c then
        match jsLength r.1 with
        | some len => jsSetField combined1 "@odata.count" len
        | none => pure (jsDeleteField combined1 "@odata.count")
      else pure combined1
    | none => pure combined1
  pure (RespText.json (jsDeleteField combined2 "@odata.nextLink"))

/-- Models `params.fetchAllPages === true`. -/
def wantsAllPages (ps : CallParams) : Bool :=
  match recordGet ps "fetchAllPages" with
  | some (.bool true) => true
  | _ => false

/-- The result returned by the tool handler (`CallToolResult`), its content
items all of text type. -/
structure RunResult where
  content : List RespText
  meta : Option Nat := none
  isError : Option Bool := none

/-- Everything after the primary transport call (lines 282-381): optionally
run the pagination block — on its success replace the first content item's
text, on its thrown error keep the response untouched — then map the content
items into the uniform result shape. -/
def finishResponse (transport : Transport) (options : ReqOptions)
    (ps : CallParams) (response : McpResponse) : RunResult :=
  let response' :=
    if wantsAllPages ps ∧ response.content.length > 0 then
      match response.content with
      | [] => response
      | item :: rest =>
        match paginate transport options item.text with
        | .ok newText => { response with content := ⟨newText⟩ :: rest }
        | .error _ => response
    else response
  { content := response'.content.map (fun item => item.text),
    meta := response'.meta,
    isError := response'.isError }

/-- Names owned by the override's schema
(`override?.schema ? new Set(Object.keys(override.schema)) : null`). -/
def overrideSchemaNames (override : Option Override) : Option (List String) :=
  override.bind (fun ov => ov.schema.map recordKeys)

/-- Models `&`-joined query-string assembly (lines 255-260). -/
def buildQueryString (q : List (String × String)) : String :=
  String.intercalate "&"
    (q.map (fun kv => encodeURIComponent kv.1 ++ "=" ++ encodeURIComponent kv.2))

/-- Request construction (lines 175-277): override transforms, the
per-parameter routing loop, query-string append, request options, and the
media-content heuristic. Produces the path and options of the primary call. -/
def buildRequest (tool : Tool) (override : Option Override) (ps : CallParams) :
    Except String (String × ReqOptions) := do
  let path1 ←
    match override.bind (fun ov => ov.pathTransform) with
    | some pt => pt tool.path ps
    | none => pure tool.path
  let body0 ←
    match override.bind (fun ov => ov.transform) with
    | some tr => tr ps
    | none => pure JVal.null
  let tq ←
    match override.bind (fun ov => ov.queryTransform) with
    | some qt => qt ps
    | none => pure []
  let query0 := tq.foldl (fun acc kv => recordSet acc kv.1 kv.2) []
  let st := routeAll tool.parameters (overrideSchemaNames override) override.isSome
    { path := path1, query := query0, headers := [], body := body0 } ps
  let path2 :=
    if st.query ≠ [] then
      st.path ++ (if strContainsChar st.path '?' then "&" else "?") ++ buildQueryString st.query
    else st.path
  let method := jsToUpperCase tool.method
  let bodyOpt :=
    if method ≠ "GET" ∧ jsTruthy st.body then
      some (match st.body with
            | .str s => s
            | v => jsonStringify v)
    else none
  let isMedia := tool.errors.contains "Retrieved media content" || strEndsWith path2 "/content"
  pure (path2, { method := method, headers := st.headers, body := bodyOpt,
                 rawResponse := isMedia, queryParams := none })

/-- The primary call: request construction followed by the transport call
(`graphClient.graphRequest(path, options)`, line 280). -/
def primaryCall (tool : Tool) (override : Option Override) (transport : Transport)
    (ps : CallParams) : Except String (ReqOptions × McpResponse) :=
  match buildRequest tool override ps with
  | .error e => .error e
  | .ok (path, options) =>
    match transport path options with
    | .error e => .error e
    | .ok response => .ok (options, response)

/-- The body of the handler's outer `try` (lines 173-381). -/
def runToolBody (tool : Tool) (override : Option Override) (transport : Transport)
    (ps : CallParams) : Except String RunResult :=
  match primaryCall tool override transport ps with
  | .error e => .error e
  | .ok (options, response) => .ok (finishResponse transport options ps response)

/-- The error result built by the handler's `catch` (lines 382-395). -/
def errorResult (tool : Tool) (msg : String) : RunResult :=
  { content := [RespText.json (.obj [("error",
      .str ("Error in tool " ++ tool.aliasName ++ ": " ++ msg))])],
    meta := none,
    isError := some true }

/-- The registered tool handler: the `try` body with its `catch`. Total — no
exception escapes. -/
def runTool (tool : Tool) (override : Option Override) (transport : Transport)
    (ps : CallParams) : RunResult :=
  match runToolBody tool override transport ps with
  | .ok r => r
  | .error msg => errorResult tool msg

/-- Holds when `sub` occurs as a contiguous substring of `s`. -/
def containsSubstring (s sub : String) : Prop :=
  ∃ pre suf, s.data = pre ++ sub.data ++ suf

/-! ## Concrete fixtures used by counterexamples and witnesses -/

/-- A plain GET listing endpoint with no declared parameters. -/
def demoTool : Tool :=
  { aliasName := "list-messages", method := "get", path := "/me/messages" }

/-- A POST endpoint with one Body-classed declared parameter `data` and one
Query-classed parameter `filter`. -/
def bodyTool : Tool :=
  { aliasName := "create-item", method := "post", path := "/me/items",
    parameters := [⟨"data", ParamType.body, none⟩, ⟨"filter", ParamType.query, none⟩] }

/-- An override that only replaces the description (no schema, no transforms). -/
def descOnlyOverride : Override :=
  { description := "custom description" }

/-- An override with a body transform but no schema object. -/
def transformOnlyOverride : Override :=
  { description := "custom description", transform := some (fun _ => .ok (.obj [])) }

/-- An override with a body transform and a schema that does not re-add the
endpoint's Body-classed parameter names. -/
def transformSchemaOverride : Override :=
  { description := "custom description", schema := some [("payload", 0)],
    transform := some (fun _ => .ok (.obj [])) }

/-- A transport whose every call throws. -/
def failTransport : Transport := fun _ _ => .error "network down"

/-- The cursor URL used by the unbounded-chain transport. -/
def chainLink : String := "https://graph.microsoft.com/v1.0/next"

/-- A one-item page carrying a next-page cursor. -/
def chainPage (v : JVal) : JVal :=
  .obj [("value", .arr [v]), ("@odata.nextLink", .str chainLink)]

/-- The content-bearing response wrapping `chainPage`. -/
def chainResp (v : JVal) : McpResponse :=
  { content := [⟨.json (chainPage v)⟩] }

/-- A transport that answers every request with another cursor-bearing page:
an unbounded page chain. -/
def chainTransport : Transport := fun _ _ => .ok (chainResp (.num 1))

/-- A transport answering with a non-JSON text payload. -/
def rawTransport : Transport := fun _ _ => .ok { content := [⟨.raw "<html>"⟩] }

/-- A transport answering with a JSON object that has no `value` array and no
cursor. -/
def noValueTransport : Transport := fun _ _ =>
  .ok { content := [⟨.json (.obj [("a", .num 1)])⟩] }

/-- Baseline request options. -/
def defaultOpts : ReqOptions := { method := "GET", headers := [] }

/-- A GET endpoint declaring a Query-classed `filter` and a Header-classed
`search`, both names in the restoration set. -/
def odataTool : Tool :=
  { aliasName := "list-items", method := "get", path := "/me/items",
    parameters := [⟨"filter", ParamType.query, none⟩, ⟨"search", ParamType.header, none⟩] }

/-! ## Record lemmas -/

theorem recordKeys_append (r s : List (String × α)) :
    recordKeys (r ++ s) = recordKeys r ++ recordKeys s := by
  simp [recordKeys]

theorem recordKeys_map_replace (r : List (String × α)) (k : String) (v : α) :
    recordKeys (r.map (fun kv => if kv.1 == k then (k, v) else kv)) = recordKeys r := by
  unfold recordKeys
  rw [List.map_map]
  refine List.map_congr_left (fun kv _ => ?_)
  by_cases h : kv.1 = k <;> simp [h]

theorem recordKeys_recordSet (r : List (String × α)) (k : String) (v : α) :
    recordKeys (recordSet r k v) =
      if r.any (fun kv => kv.1 == k) then recordKeys r else recordKeys r ++ [k] := by
  unfold recordSet
  split
  · next h => simp only [h, if_true, recordKeys_map_replace]
  · next h =>
      simp only [h, if_false, recordKeys_append, recordKeys, List.map_append, List.map_cons,
        List.map_nil]

theorem mem_recordKeys_recordSet (r : List (String × α)) (k k' : String) (v : α) :
    k' ∈ recordKeys (recordSet r k v) ↔ k' = k ∨ k' ∈ recordKeys r := by
  rw [recordKeys_recordSet]
  split
  · next hany =>
    rcases List.any_eq_true.mp hany with ⟨kv, hkv, hk⟩
    constructor
    · exact Or.inr
    · intro hor
      rcases hor with heq | h
      · have hk2 : kv.1 = k := by simpa using hk
        rw [heq, ← hk2]
        exact List.mem_map.mpr ⟨kv, hkv, rfl⟩
      · exact h
  · simp only [List.mem_append, List.mem_singleton]
    tauto

theorem mem_recordKeys_recordDelete (r : List (String × α)) (k k' : String) :
    k' ∈ recordKeys (recordDelete r k) ↔ k' ∈ recordKeys r ∧ k' ≠ k := by
  unfold recordDelete recordKeys
  simp only [List.mem_map, List.mem_filter]
  constructor
  · rintro ⟨kv, ⟨hkv, hne⟩, rfl⟩
    exact ⟨⟨kv, hkv, rfl⟩, by simpa using hne⟩
  · rintro ⟨⟨kv, hkv, rfl⟩, hne⟩
    exact ⟨kv, ⟨hkv, by simpa using hne⟩, rfl⟩

theorem not_mem_recordKeys_foldl_recordDelete (ns : List String) (r : List (String × α))
    (k : String) (h : k ∉ recordKeys r) :
    k ∉ recordKeys (ns.foldl (fun acc n => recordDelete acc n) r) := by
  induction ns generalizing r with
  | nil => exact h
  | cons n ns ih =>
    exact ih _ (fun hm => h ((mem_recordKeys_recordDelete r n k).mp hm).1)

theorem mem_foldl_recordDelete (ns : List String) (r : List (String × α)) (k : String)
    (hk : k ∈ ns) :
    k ∉ recordKeys (ns.foldl (fun acc n => recordDelete acc n) r) := by
  induction ns generalizing r with
  | nil => cases hk
  | cons n ns ih =>
    rcases List.mem_cons.mp hk with rfl | hk'
    · by_cases h : k ∈ ns
      · exact ih _ h
      · exact not_mem_recordKeys_foldl_recordDelete ns _ k
          (fun hm => (((mem_recordKeys_recordDelete r k k).mp hm).2) rfl)
    · exact ih _ hk'

theorem mem_recordKeys_foldl_recordSet {β : Type _} (l : List β) (key : β → String)
    (val : β → α) (r : List (String × α)) (k : String) :
    k ∈ recordKeys (l.foldl (fun acc x => recordSet acc (key x) (val x)) r) ↔
      k ∈ recordKeys r ∨ k ∈ l.map key := by
  induction l generalizing r with
  | nil => simp
  | cons x l ih =>
    simp only [List.foldl_cons, List.map_cons, List.mem_cons]
    rw [ih, mem_recordKeys_recordSet]
    tauto

theorem recordGet_eq_none_iff (r : List (String × α)) (k : String) :
    recordGet r k = none ↔ ∀ kv ∈ r, kv.1 ≠ k := by
  unfold recordGet
  rw [Option.map_eq_none', List.find?_eq_none]
  simp

theorem recordGet_recordSet_ne (r : List (String × α)) (k k' : String) (v : α)
    (h : k' ≠ k) : recordGet (recordSet r k v) k' = recordGet r k' := by
  unfold recordSet recordGet
  split
  · rw [List.find?_map]
    have hfun : ((fun kv => kv.1 == k') ∘ (fun kv : String × α => if kv.1 == k then (k, v) else kv))
        = fun (kv : String × α) => kv.1 == k' := by
      funext kv
      by_cases hk : kv.1 = k
      · simp [hk, Ne.symm h]
      · simp [hk]
    rw [hfun]
    cases hf : List.find? (fun kv => kv.1 == k') r with
    | none => rfl
    | some kv0 =>
      have hk0 : kv0.1 = k' := by simpa using List.find?_some hf
      have hne : (kv0.1 == k) = false := by simp [hk0, h]
      simp [Option.map, hne]
  · rw [List.find?_append]
    have h1 : List.find? (fun kv => kv.1 == k') [(k, v)] = none := by
      have hne : (k == k') = false := by simpa using Ne.symm h
      simp [List.find?, hne]
    rw [h1]
    cases List.find? (fun kv => kv.1 == k') r <;> rfl

theorem recordDelete_of_get_none (r : List (String × α)) (k : String)
    (h : recordGet r k = none) : recordDelete r k = r := by
  unfold recordDelete
  refine List.filter_eq_self.mpr (fun kv hkv => ?_)
  have := (recordGet_eq_none_iff r k).mp h kv hkv
  simpa using this

/-! ## String replacement lemmas -/

theorem isPrefixOf_eq_true_iff (l₁ l₂ : List Char) : l₁.isPrefixOf l₂ = true ↔ l₁ <+: l₂ :=
  List.isPrefixOf_iff_prefix

theorem replaceFirstL_no_occurrence (s pat rep : List Char) (h : ¬ pat <:+: s) :
    replaceFirstL s pat rep = s := by
  induction s with
  | nil => rfl
  | cons c rest ih =>
    have hp : pat.isPrefixOf (c :: rest) = false := by
      rw [Bool.eq_false_iff]
      intro hp
      exact h ((isPrefixOf_eq_true_iff _ _).mp hp).isInfix
    simp only [replaceFirstL, hp, Bool.false_eq_true, if_false]
    rw [ih (fun hi => h (List.infix_cons hi))]

theorem replaceFirstL_prefix_head (p0 : Char) (pr b rep : List Char) :
    replaceFirstL ((p0 :: pr) ++ b) (p0 :: pr) rep = rep ++ b := by
  have hpre : (p0 :: pr).isPrefixOf ((p0 :: pr) ++ b) = true := by
    rw [isPrefixOf_eq_true_iff]
    exact List.prefix_append _ _
  rw [List.cons_append]
  simp only [replaceFirstL]
  rw [← List.cons_append, hpre]
  simp only [if_true]
  rw [List.drop_left]

theorem replaceFirstL_append (a b rep : List Char) (p0 : Char) (pr : List Char)
    (ha : p0 ∉ a) :
    replaceFirstL (a ++ (p0 :: pr) ++ b) (p0 :: pr) rep = a ++ rep ++ b := by
  induction a with
  | nil =>
    simp only [List.nil_append]
    exact replaceFirstL_prefix_head p0 pr b rep
  | cons c a ih =>
    have hc : (p0 == c) = false := by
      have hne : c ≠ p0 := fun hceq => ha (hceq ▸ List.mem_cons_self c a)
      simpa using (Ne.symm hne)
    have hnp : (p0 :: pr).isPrefixOf (c :: (a ++ (p0 :: pr) ++ b)) = false := by
      simp [List.isPrefixOf, hc]
    have ih' := ih (fun hm => ha (List.mem_cons_of_mem c hm))
    rw [List.cons_append, List.cons_append]
    simp only [replaceFirstL]
    rw [hnp]
    simp only [Bool.false_eq_true, if_false]
    rw [ih']
    simp

theorem not_infix_of_mem_not_mem (pat s : List Char) (c : Char) (hc : c ∈ pat)
    (hs : c ∉ s) : ¬ pat <:+: s :=
  fun h => hs (h.subset hc)

/-! ## encodeURIComponent character lemmas -/

/-- Characters that can never occur in `encodeURIComponent` output: the two
brace forms and the colon of the path placeholder syntaxes. -/
abbrev safePathChar (c : Char) : Prop :=
  c ≠ '\x7b' ∧ c ≠ '\x7d' ∧ c ≠ ':'

theorem hexDigit_mem (n : Nat) : hexDigit n ∈ "0123456789ABCDEF".data := by
  unfold hexDigit
  rcases Nat.lt_or_ge n 16 with h | h
  · interval_cases n <;> decide
  · rw [List.getD_eq_default]
    · decide
    · simpa using h

theorem safePathChar_hexDigit (n : Nat) : safePathChar (hexDigit n) := by
  have hmem := hexDigit_mem n
  have hall : ∀ c ∈ "0123456789ABCDEF".data, safePathChar c := by decide
  exact hall _ hmem

theorem safePathChar_of_mem_encChar (c c' : Char) (h : c' ∈ encChar c) :
    safePathChar c' := by
  unfold encChar at h
  split at h
  · next hu =>
    rcases List.mem_singleton.mp h with rfl
    refine ⟨?_, ?_, ?_⟩ <;> rintro rfl <;> simp_all [uriUnreserved]
  · generalize utf8Bytes c = bs at h
    induction bs with
    | nil => simp at h
    | cons x xs ih =>
      simp only [List.foldr_cons, List.mem_cons] at h
      rcases h with rfl | rfl | rfl | h
      · decide
      · exact safePathChar_hexDigit _
      · exact safePathChar_hexDigit _
      · exact ih (by simpa using h)

theorem safePathChar_of_mem_encode (s : String) (c' : Char)
    (h : c' ∈ (encodeURIComponent s).data) : safePathChar c' := by
  unfold encodeURIComponent at h
  have h' : c' ∈ s.data.foldr (fun c acc => encChar c ++ acc) [] := h
  clear h
  generalize s.data = cs at h'
  induction cs with
  | nil => simp at h'
  | cons c cs ih =>
    simp only [List.foldr_cons] at h'
    rcases List.mem_append.mp h' with h1 | h2
    · exact safePathChar_of_mem_encChar c c' h1
    · exact ih h2

/-! ## Claim theorems -/

/-- C8: for a declared Path-classed parameter named `n` with supplied value
`va`, path resolution replaces the `\x7bn\x7d` form and the `:n` form occurring in
the path template by the percent-encoded value, and — for correctly declared
templates, whose surrounding text and placeholder name contain no brace or
colon characters — no unresolved placeholder of either form remains in the
substituted path. -/
theorem claim_C8_path_substitution (n va : String) (a b : List Char)
    (hn : ∀ c ∈ n.data, safePathChar c)
    (ha : ∀ c ∈ a, safePathChar c)
    (hb : ∀ c ∈ b, safePathChar c) :
    substPathParam ⟨a ++ '\x7b' :: (n.data ++ '\x7d' :: b)⟩ n (encodeURIComponent va)
        = ⟨a ++ (encodeURIComponent va).data ++ b⟩
    ∧ substPathParam ⟨a ++ ':' :: (n.data ++ b)⟩ n (encodeURIComponent va)
        = ⟨a ++ (encodeURIComponent va).data ++ b⟩
    ∧ ¬ ("\x7b" ++ n ++ "\x7d").data <:+: a ++ (encodeURIComponent va).data ++ b
    ∧ ¬ (":" ++ n).data <:+: a ++ (encodeURIComponent va).data ++ b := by
  have hsafe : ∀ c ∈ a ++ (encodeURIComponent va).data ++ b, safePathChar c := by
    intro c hc
    rcases List.mem_append.mp hc with hc1 | hc2
    · rcases List.mem_append.mp hc1 with hca | hce
      · exact ha c hca
      · exact safePathChar_of_mem_encode va c hce
    · exact hb c hc2
  have hpat1 : ("\x7b" ++ n ++ "\x7d").data = '\x7b' :: (n.data ++ ['\x7d']) := by
    simp [String.data_append]
  have hpat2 : (":" ++ n).data = ':' :: n.data := by
    simp [String.data_append]
  have hnotinfix1 : ¬ ("\x7b" ++ n ++ "\x7d").data <:+: a ++ (encodeURIComponent va).data ++ b := by
    rw [hpat1]
    refine not_infix_of_mem_not_mem _ _ '\x7b' (List.mem_cons_self _ _) (fun hm => ?_)
    exact (hsafe _ hm).1 rfl
  have hnotinfix2 : ¬ (":" ++ n).data <:+: a ++ (encodeURIComponent va).data ++ b := by
    rw [hpat2]
    refine not_infix_of_mem_not_mem _ _ ':' (List.mem_cons_self _ _) (fun hm => ?_)
    exact (hsafe _ hm).2.2 rfl
  refine ⟨?_, ?_, hnotinfix1, hnotinfix2⟩
  · have hshape : a ++ '\x7b' :: (n.data ++ '\x7d' :: b)
        = a ++ ('\x7b' :: (n.data ++ ['\x7d'])) ++ b := by simp
    have hstep1 : replaceFirstL (a ++ ('\x7b' :: (n.data ++ ['\x7d'])) ++ b)
        ('\x7b' :: (n.data ++ ['\x7d'])) (encodeURIComponent va).data
        = a ++ (encodeURIComponent va).data ++ b :=
      replaceFirstL_append a b _ '\x7b' _ (fun hm => (ha _ hm).1 rfl)
    have hstep2 : replaceFirstL (a ++ (encodeURIComponent va).data ++ b)
        (':' :: n.data) (encodeURIComponent va).data
        = a ++ (encodeURIComponent va).data ++ b := by
      apply replaceFirstL_no_occurrence
      have h2' := hnotinfix2
      rw [hpat2] at h2'
      exact h2'
    show (⟨replaceFirstL (replaceFirstL (a ++ '\x7b' :: (n.data ++ '\x7d' :: b))
        ("\x7b" ++ n ++ "\x7d").data (encodeURIComponent va).data) (":" ++ n).data
        (encodeURIComponent va).data⟩ : String) = ⟨a ++ (encodeURIComponent va).data ++ b⟩
    rw [hpat1, hpat2, hshape, hstep1, hstep2]
  · have hshape : a ++ ':' :: (n.data ++ b) = a ++ (':' :: n.data) ++ b := by simp
    have hstep1 : replaceFirstL (a ++ (':' :: n.data) ++ b)
        ('\x7b' :: (n.data ++ ['\x7d'])) (encodeURIComponent va).data
        = a ++ (':' :: n.data) ++ b := by
      apply replaceFirstL_no_occurrence
      refine not_infix_of_mem_not_mem _ _ '\x7b' (List.mem_cons_self _ _) (fun hm => ?_)
      rcases List.mem_append.mp hm with h1 | h2
      · rcases List.mem_append.mp h1 with hca | hcn
        · exact (ha _ hca).1 rfl
        · rcases List.mem_cons.mp hcn with hceq | hcn2
          · exact absurd hceq (by decide)
          · exact (hn _ hcn2).1 rfl
      · exact (hb _ h2).1 rfl
    have hstep2 : replaceFirstL (a ++ (':' :: n.data) ++ b) (':' :: n.data)
        (encodeURIComponent va).data = a ++ (encodeURIComponent va).data ++ b :=
      replaceFirstL_append a b _ ':' _ (fun hm => (ha _ hm).2.2 rfl)
    show (⟨replaceFirstL (replaceFirstL (a ++ ':' :: (n.data ++ b))
        ("\x7b" ++ n ++ "\x7d").data (encodeURIComponent va).data) (":" ++ n).data
        (encodeURIComponent va).data⟩ : String) = ⟨a ++ (encodeURIComponent va).data ++ b⟩
    rw [hpat1, hpat2, hshape, hstep1, hstep2]

/-- Witness for C8 at the template `/users/\x7bid\x7d/messages` (and its `:id`
variant) with value `"a b"`. -/
theorem claim_C8_path_substitution_witness :
    substPathParam ⟨"/users/".data ++ '\x7b' :: ("id".data ++ '\x7d' :: "/messages".data)⟩
        "id" (encodeURIComponent "a b")
      = ⟨"/users/".data ++ (encodeURIComponent "a b").data ++ "/messages".data⟩
    ∧ substPathParam ⟨"/users/".data ++ ':' :: ("id".data ++ "/messages".data)⟩
        "id" (encodeURIComponent "a b")
      = ⟨"/users/".data ++ (encodeURIComponent "a b").data ++ "/messages".data⟩
    ∧ ¬ ("\x7b" ++ "id" ++ "\x7d").data <:+:
        "/users/".data ++ (encodeURIComponent "a b").data ++ "/messages".data
    ∧ ¬ (":" ++ "id").data <:+:
        "/users/".data ++ (encodeURIComponent "a b").data ++ "/messages".data :=
  claim_C8_path_substitution "id" "a b" "/users/".data "/messages".data
    (by decide) (by decide) (by decide)

/-- C9: the reserved control parameter `fetchAllPages` is never routed by the
mechanical per-parameter routing: one routing step on it leaves the
in-progress request untouched, for any declared parameters, override-owned
names, override presence, and value. -/
theorem claim_C9_fetchAllPages_not_routed (defs : List ParamDef)
    (ovNames : Option (List String)) (hasOverride : Bool) (st : RouteState) (v : JVal)
    (ps : CallParams) :
    routeStep defs ovNames hasOverride st ("fetchAllPages", v) = st
    ∧ routeAll defs ovNames hasOverride st (("fetchAllPages", v) :: ps)
      = routeAll defs ovNames hasOverride st ps := by
  have h1 : routeStep defs ovNames hasOverride st ("fetchAllPages", v) = st := by
    simp [routeStep]
  refine ⟨h1, ?_⟩
  show List.foldl _ _ _ = List.foldl _ _ _
  rw [List.foldl_cons, h1]

/-- C6: a non-overridden Query-classed parameter whose lowercase name is in
the restoration set is exposed in the effective schema under its plain name,
while routing writes the query entry under the `$`-prefixed lowercase name
with the stringified supplied value. -/
theorem claim_C6_odata_restoration (tool : Tool) (n : String) (d : ParamDef)
    (hfind : tool.parameters.find? (fun q => q.name == n) = some d)
    (hq : d.ptype = ParamType.query)
    (hmem : odataParams.contains (jsToLowerCase n) = true) :
    n ∈ recordKeys (buildParamSchema tool none)
    ∧ ∀ (ovNames : Option (List String)) (hasOverride : Bool) (st : RouteState) (v : JVal),
        ovOwns ovNames n = false →
        routeStep tool.parameters ovNames hasOverride st (n, v)
          = { st with query := recordSet st.query ("$" ++ jsToLowerCase n) (jsToStr v) } := by
  have hdmem : d ∈ tool.parameters := List.mem_of_find?_eq_some hfind
  have hdname : d.name = n := by simpa using List.find?_some hfind
  constructor
  · unfold buildParamSchema
    have hmem0 : n ∈ recordKeys (tool.parameters.foldl
        (fun acc p => recordSet acc p.name
          (match p.schemaId with
           | some i => SchemaV.declared i
           | none => SchemaV.anyV)) []) := by
      rw [mem_recordKeys_foldl_recordSet]
      exact Or.inr (List.mem_map.mpr ⟨d, hdmem, hdname⟩)
    split
    · exact (mem_recordKeys_recordSet _ _ _ _).mpr (Or.inr hmem0)
    · exact hmem0
  · intro ovNames hasOverride st v hov
    have hfa : ¬ (n = "fetchAllPages") := by
      intro heq
      rw [heq] at hmem
      exact absurd hmem (by decide)
    obtain ⟨dn, dt, ds⟩ := d
    simp only at hq
    subst hq
    simp only [routeStep, hfa, if_false, hov, Bool.false_eq_true, hfind, fixName, hmem, if_true]

/-- Witness for C6 on the `filter` parameter of `odataTool`. -/
theorem claim_C6_odata_restoration_witness :
    "filter" ∈ recordKeys (buildParamSchema odataTool none)
    ∧ routeStep odataTool.parameters none false
        { path := "/me/items", query := [], headers := [], body := .null }
        ("filter", .str "x eq 1")
      = { path := "/me/items", query := [("$filter", "x eq 1")], headers := [],
          body := .null } :=
  ⟨(claim_C6_odata_restoration odataTool "filter" ⟨"filter", ParamType.query, none⟩
      rfl rfl (by decide)).1,
   by
    have h := (claim_C6_odata_restoration odataTool "filter" ⟨"filter", ParamType.query, none⟩
      rfl rfl (by decide)).2 none false
      { path := "/me/items", query := [], headers := [], body := .null } (.str "x eq 1") rfl
    simpa [recordSet, jsToLowerCase, jsToStr] using h⟩

/-- C10 (implicit): the reserved-name restoration also applies to
Header-classed parameters — a non-overridden Header parameter whose lowercase
name is in the restoration set is written into the headers under the
`$`-prefixed lowercase name. -/
theorem claim_C10_header_restoration (tool : Tool) (n : String) (d : ParamDef)
    (hfind : tool.parameters.find? (fun q => q.name == n) = some d)
    (hh : d.ptype = ParamType.header)
    (hmem : odataParams.contains (jsToLowerCase n) = true) :
    ∀ (ovNames : Option (List String)) (hasOverride : Bool) (st : RouteState) (v : JVal),
        ovOwns ovNames n = false →
        routeStep tool.parameters ovNames hasOverride st (n, v)
          = { st with headers := recordSet st.headers ("$" ++ jsToLowerCase n) (jsToStr v) } := by
  intro ovNames hasOverride st v hov
  have hfa : ¬ (n = "fetchAllPages") := by
    intro heq
    rw [heq] at hmem
    exact absurd hmem (by decide)
  obtain ⟨dn, dt, ds⟩ := d
  simp only at hh
  subst hh
  simp only [routeStep, hfa, if_false, hov, Bool.false_eq_true, hfind, fixName, hmem, if_true]

/-- Witness for C10 on the `search` header parameter of `odataTool`. -/
theorem claim_C10_header_restoration_witness :
    routeStep odataTool.parameters none false
        { path := "/me/items", query := [], headers := [], body := .null }
        ("search", .str "pizza")
      = { path := "/me/items", query := [], headers := [("$search", "pizza")],
          body := .null } := by
  have h := claim_C10_header_restoration odataTool "search" ⟨"search", ParamType.header, none⟩
    rfl rfl (by decide) none false
    { path := "/me/items", query := [], headers := [], body := .null } (.str "pizza") rfl
  simpa [recordSet, jsToLowerCase, jsToStr] using h

/-- Counterexample to C4 as stated: `bodyTool` declares the Body-classed
parameter `data`, and `descOnlyOverride` is an override record with no body
transform — yet the supplied value does not become the request body (the
handler's guard is `!override`, not the absence of a body transform): the
routed body stays `null` and the built request carries no body. -/
theorem claim_C4_counterexample :
    (routeAll bodyTool.parameters (overrideSchemaNames (some descOnlyOverride)) true
        { path := bodyTool.path, query := [], headers := [], body := JVal.null }
        [("data", JVal.str "v")]).body = JVal.null
    ∧ JVal.null ≠ JVal.str "v"
    ∧ buildRequest bodyTool (some descOnlyOverride) [("data", JVal.str "v")]
      = .ok ("/me/items",
          { method := "POST", headers := [], body := none,
            rawResponse := false, queryParams := none }) :=
  by
  refine ⟨rfl, ?_, rfl⟩
  simp

/-- C4 amended: the mechanical body routing applies only when no override
record exists at all (not merely when the override lacks a body transform):
with no override, a declared Body-classed parameter's supplied value becomes
the body, and an undeclared parameter literally named `body` becomes the body
when no declared parameter matches. -/
theorem claim_C4_body_routing_amended (defs : List ParamDef) (st : RouteState)
    (n : String) (v : JVal) :
    (∀ d : ParamDef, defs.find? (fun q => q.name == n) = some d →
      d.ptype = ParamType.body → n ≠ "fetchAllPages" →
      routeStep defs none false st (n, v) = { st with body := v })
    ∧ (defs.find? (fun q => q.name == "body") = none →
      routeStep defs none false st ("body", v) = { st with body := v }) := by
  constructor
  · intro d hfind hb hfa
    obtain ⟨dn, dt, ds⟩ := d
    simp only at hb
    subst hb
    simp only [routeStep, hfa, if_false, ovOwns, Bool.false_eq_true, hfind]
  · intro hfind2
    simp only [routeStep, ovOwns, Bool.false_eq_true, if_false, hfind2]
    simp [show ("body" : String) ≠ "fetchAllPages" from by decide]

/-- Witness for the amended C4: with no override, `data` routes to the body
on `bodyTool`, and an undeclared `body` parameter routes to the body on
`demoTool`. -/
theorem claim_C4_body_routing_amended_witness :
    routeStep bodyTool.parameters none false
        { path := "/me/items", query := [], headers := [], body := JVal.null }
        ("data", JVal.str "v")
      = { path := "/me/items", query := [], headers := [], body := JVal.str "v" }
    ∧ routeStep demoTool.parameters none false
        { path := "/me/messages", query := [], headers := [], body := JVal.null }
        ("body", JVal.num 7)
      = { path := "/me/messages", query := [], headers := [], body := JVal.num 7 } := by
  constructor
  · exact (claim_C4_body_routing_amended bodyTool.parameters
      { path := "/me/items", query := [], headers := [], body := JVal.null }
      "data" (JVal.str "v")).1 ⟨"data", ParamType.body, none⟩ rfl rfl (by decide)
  · exact (claim_C4_body_routing_amended demoTool.parameters
      { path := "/me/messages", query := [], headers := [], body := JVal.null }
      "body" (JVal.num 7)).2 rfl

/-- Counterexample to C5 as stated: `transformOnlyOverride` supplies a body
transform but no schema object, so the registration-time deletions (guarded by
`override && override.schema`) never run: the Body-classed parameter `data`
of `bodyTool` stays in the effective tool schema even though no override
schema re-adds it. -/
theorem claim_C5_counterexample :
    recordKeys (buildParamSchema bodyTool (some transformOnlyOverride)) = ["data", "filter"]
    ∧ "data" ∈ recordKeys (buildParamSchema bodyTool (some transformOnlyOverride))
    ∧ transformOnlyOverride.transform.isSome = true
    ∧ transformOnlyOverride.schema = none := by
  refine ⟨rfl, ?_, rfl, rfl⟩
  rw [show recordKeys (buildParamSchema bodyTool (some transformOnlyOverride))
      = ["data", "filter"] from rfl]
  decide

/-- C5 amended: when an override supplies a body transform **and** a schema
object, a Body-classed declared parameter name appears in the effective tool
schema exactly when the override's own schema re-adds it under that name. -/
theorem claim_C5_body_schema_amended (tool : Tool) (ov : Override)
    (sch : List (String × Nat)) (ht : ov.transform.isSome = true)
    (hs : ov.schema = some sch) (n : String) (hn : n ∈ bodyParamNames tool) :
    n ∈ recordKeys (buildParamSchema tool (some ov)) ↔ n ∈ sch.map (fun kv => kv.1) := by
  have hdel : ∀ r : List (String × SchemaV),
      n ∉ recordKeys (recordDelete ((bodyParamNames tool).foldl
        (fun acc m => recordDelete acc m) r) "body") := by
    intro r hmem2
    exact mem_foldl_recordDelete _ _ _ hn ((mem_recordKeys_recordDelete _ _ _).mp hmem2).1
  unfold buildParamSchema
  simp only [hs, ht, if_true]
  rw [mem_recordKeys_foldl_recordSet]
  refine Iff.intro (fun h => ?_) (fun h => Or.inr h)
  rcases h with h | h
  · exfalso
    revert h
    split
    · intro h
      exact not_mem_recordKeys_foldl_recordDelete _ _ _ (hdel _) h
    · intro h
      exact hdel _ h
  · exact h

/-- Witness for the amended C5 on `bodyTool` and `transformSchemaOverride`. -/
theorem claim_C5_body_schema_amended_witness :
    ("data" ∈ recordKeys (buildParamSchema bodyTool (some transformSchemaOverride))
      ↔ "data" ∈ ([("payload", 0)] : List (String × Nat)).map (fun kv => kv.1)) :=
  claim_C5_body_schema_amended bodyTool transformSchemaOverride [("payload", 0)]
    rfl rfl "data" (by decide)

/-- Folding the JSON escape with a nonempty initial accumulator. -/
theorem foldr_escape_append (l : List Char) (init : List Char) :
    l.foldr (fun c acc => jsonEscapeChar c ++ acc) init
      = l.foldr (fun c acc => jsonEscapeChar c ++ acc) [] ++ init := by
  induction l with
  | nil => simp
  | cons c cs ih => simp [ih]

/-- The `JSON.stringify` escaping distributes over string append. -/
theorem jsonEscape_append (a b : String) :
    jsonEscape (a ++ b) = jsonEscape a ++ jsonEscape b := by
  unfold jsonEscape
  show String.mk _ = String.mk _
  rw [String.data_append, List.foldr_append, foldr_escape_append]

/-- A string whose characters all escape to themselves is fixed by the JSON
escape. -/
theorem jsonEscape_plain (s : String) (h : ∀ c ∈ s.data, jsonEscapeChar c = [c]) :
    jsonEscape s = s := by
  unfold jsonEscape
  obtain ⟨l⟩ := s
  show String.mk _ = String.mk _
  congr 1
  induction l with
  | nil => rfl
  | cons c cs ih =>
    simp only [List.foldr_cons]
    rw [h c (List.mem_cons_self c cs), ih (fun c' hc' => h c' (List.mem_cons_of_mem c hc'))]
    rfl

/-- C1: if the primary call — request construction or the transport call —
throws, the handler returns exactly one text content item whose text contains
the substring `"Error in tool X"` for the tool's symbolic name `X`, with
`isError` true; the handler itself is a total function, so no exception
propagates. (The side condition requires the tool name to contain no
JSON-escaped characters, which every symbolic tool name satisfies.) -/
theorem claim_C1_transport_error_contained (tool : Tool) (override : Option Override)
    (transport : Transport) (ps : CallParams) (msg : String)
    (hfail : primaryCall tool override transport ps = .error msg)
    (hplain : ∀ c ∈ tool.aliasName.data, jsonEscapeChar c = [c]) :
    runTool tool override transport ps
      = { content := [RespText.json (.obj [("error",
            .str ("Error in tool " ++ tool.aliasName ++ ": " ++ msg))])],
          meta := none, isError := some true }
    ∧ containsSubstring
        (stringifyText (RespText.json (.obj [("error",
          .str ("Error in tool " ++ tool.aliasName ++ ": " ++ msg))])))
        ("Error in tool " ++ tool.aliasName) := by
  constructor
  · unfold runTool runToolBody
    rw [hfail]
    rfl
  · have hesc1 : jsonEscape ("Error in tool " ++ tool.aliasName)
        = "Error in tool " ++ tool.aliasName := by
      apply jsonEscape_plain
      intro c hc
      rw [String.data_append] at hc
      rcases List.mem_append.mp hc with h1 | h2
      · have hall : ∀ c ∈ "Error in tool ".data, jsonEscapeChar c = [c] := by decide
        exact hall c h1
      · exact hplain c h2
    have hs : ("Error in tool " ++ tool.aliasName ++ ": " ++ msg : String)
        = ("Error in tool " ++ tool.aliasName) ++ (": " ++ msg) := by
      rw [String.append_assoc]
    refine ⟨"\x7b".data ++ "\"".data ++ "error".data ++ "\":".data ++ "\"".data,
      (jsonEscape (": " ++ msg)).data ++ "\"".data ++ "\x7d".data, ?_⟩
    show (jsonStringify _).data = _
    simp only [jsonStringify, jsonStringifyFields]
    rw [hs, jsonEscape_append, hesc1]
    simp only [String.data_append, List.append_assoc]
    have e1 : (jsonEscape "error").data = "error".data := by
      rw [jsonEscape_plain "error" (by decide)]
    rw [e1]

/-- Witness for C1: a transport that always throws, on `demoTool`. -/
theorem claim_C1_transport_error_contained_witness :
    runTool demoTool none failTransport []
      = { content := [RespText.json (.obj [("error",
            .str ("Error in tool " ++ demoTool.aliasName ++ ": " ++ "network down"))])],
          meta := none, isError := some true }
    ∧ containsSubstring
        (stringifyText (RespText.json (.obj [("error",
          .str ("Error in tool " ++ demoTool.aliasName ++ ": " ++ "network down"))])))
        ("Error in tool " ++ demoTool.aliasName) :=
  claim_C1_transport_error_contained demoTool none failTransport [] "network down"
    rfl (by decide)

/-- C7: a parsing error inside the pagination block aborts only pagination —
the handler still returns normally (`isError` is the transport's flag, not
forced), and, because the first page's text is rewritten only after a fully
successful merge, the first-page response body reaches the caller
unmodified. -/
theorem claim_C7_pagination_error_contained (tool : Tool) (override : Option Override)
    (transport : Transport) (ps : CallParams) (path : String) (opts : ReqOptions)
    (resp : McpResponse) (item : RContent) (rest : List RContent) (m : String)
    (hbuild : buildRequest tool override ps = .ok (path, opts))
    (htr : transport path opts = .ok resp)
    (hcontent : resp.content = item :: rest)
    (hwant : wantsAllPages ps = true)
    (hpag : paginate transport opts item.text = .error m) :
    runTool tool override transport ps
      = { content := (item :: rest).map (fun it => it.text),
          meta := resp.meta, isError := resp.isError } := by
  simp only [runTool, runToolBody, primaryCall, hbuild, htr]
  unfold finishResponse
  rw [hcontent]
  simp only [hwant, List.length_cons, true_and, Nat.succ_pos, if_pos, hpag]
  rw [hcontent]

/-- Witness for C7: a first page whose text is not JSON, with
`fetchAllPages: true`. -/
theorem claim_C7_pagination_error_contained_witness :
    runTool demoTool none rawTransport [("fetchAllPages", .bool true)]
      = { content := [RespText.raw "<html>"], meta := none, isError := none } :=
  claim_C7_pagination_error_contained demoTool none rawTransport
    [("fetchAllPages", .bool true)] "/me/messages"
    { method := "GET", headers := [] } { content := [⟨.raw "<html>"⟩] }
    ⟨.raw "<html>"⟩ [] "SyntaxError: Unexpected token" rfl rfl rfl rfl rfl

/-- The pagination loop exits immediately when the first page carries no
cursor. -/
theorem pagLoop_none (tr : Transport) (opts : ReqOptions) (items : JVal) (pc : Nat) :
    pagLoop tr opts none items pc = .ok (items, pc) := by
  simp [pagLoop]

/-- The pagination merge on a first page that parses as a JSON object with no
`value`, no cursor and no count: the loop never runs, and the merge rewrites
the body with `value: []`. -/
theorem paginate_merge_without_value (tr : Transport) (opts : ReqOptions)
    (fields : List (String × JVal))
    (hv : recordGet fields "value" = none)
    (hn : recordGet fields "@odata.nextLink" = none)
    (hc : recordGet fields "@odata.count" = none) :
    paginate tr opts (.json (.obj fields))
      = .ok (.json (.obj (recordSet fields "value" (.arr [])))) := by
  have hc' : recordGet (recordSet fields "value" (JVal.arr [])) "@odata.count" = none := by
    rw [recordGet_recordSet_ne _ _ _ _ (by decide)]
    exact hc
  have hn' : recordGet (recordSet fields "value" (JVal.arr [])) "@odata.nextLink" = none := by
    rw [recordGet_recordSet_ne _ _ _ _ (by decide)]
    exact hn
  unfold paginate
  simp only [jsonParse, Bind.bind, Except.bind, jsGetField, hv, hn]
  rw [pagLoop_none]
  simp only [jsSetField, jsGetField, hc', jsDeleteField, pure, Except.pure]
  rw [recordDelete_of_get_none _ _ hn']

/-- Counterexample to C3 as stated: a first response whose text parses as the
JSON object `\x7b"a":1\x7d` — JSON with **no** `value` array — is *not* returned
unchanged under `fetchAllPages: true`: the merge still runs (`value || []`)
and rewrites the body to `\x7b"a":1,"value":[]\x7d`. -/
theorem claim_C3_counterexample :
    runTool demoTool none noValueTransport [("fetchAllPages", .bool true)]
      = { content := [RespText.json (.obj [("a", .num 1), ("value", .arr [])])],
          meta := none, isError := none }
    ∧ [RespText.json (JVal.obj [("a", JVal.num 1), ("value", JVal.arr [])])]
      ≠ [RespText.json (JVal.obj [("a", JVal.num 1)])] := by
  constructor
  · have hb : buildRequest demoTool none [("fetchAllPages", .bool true)]
        = .ok ("/me/messages", { method := "GET", headers := [] }) := rfl
    have htr : noValueTransport "/me/messages" { method := "GET", headers := [] }
        = .ok { content := [⟨.json (.obj [("a", .num 1)])⟩] } := rfl
    have hp := paginate_merge_without_value noValueTransport
      { method := "GET", headers := [] } [("a", .num 1)] rfl rfl rfl
    simp only [runTool, runToolBody, primaryCall, hb, htr]
    unfold finishResponse
    simp only [hp, wantsAllPages, recordGet, List.find?, List.length_cons, Nat.succ_pos,
      and_true, true_and, if_pos]
    rfl
  · simp

/-- C3 amended: the pagination merge runs whenever the caller set
`fetchAllPages` to true, the first response is content-bearing, and the first
content item's text parses as JSON — a `value` array is *not* required. When
`fetchAllPages` is not set the response is passed through untouched; when the
first page parses as a JSON object with no `value`, no cursor and no count
field, the merge rewrites the body, adding `value: []`, instead of returning
it unchanged. -/
theorem claim_C3_merge_condition_amended :
    (∀ (transport : Transport) (opts : ReqOptions) (ps : CallParams) (resp : McpResponse),
      wantsAllPages ps = false →
      finishResponse transport opts ps resp
        = { content := resp.content.map (fun it => it.text), meta := resp.meta,
            isError := resp.isError })
    ∧ (∀ (transport : Transport) (opts : ReqOptions) (fields : List (String × JVal)),
      recordGet fields "value" = none →
      recordGet fields "@odata.nextLink" = none →
      recordGet fields "@odata.count" = none →
      paginate transport opts (.json (.obj fields))
        = .ok (.json (.obj (recordSet fields "value" (.arr []))))) := by
  constructor
  · intro transport opts ps resp h
    unfold finishResponse
    simp [h]
  · intro transport opts fields hv hn hc
    exact paginate_merge_without_value transport opts fields hv hn hc

/-- Witness for the amended C3: pass-through without the flag, and the
`value: []` rewrite on `\x7b"a":1\x7d`. -/
theorem claim_C3_merge_condition_amended_witness :
    finishResponse noValueTransport defaultOpts [] { content := [⟨.raw "x"⟩] }
      = { content := [RespText.raw "x"], meta := none, isError := none }
    ∧ paginate noValueTransport defaultOpts (.json (.obj [("a", .num 1)]))
      = .ok (.json (.obj (recordSet [("a", .num 1)] "value" (.arr [])))) :=
  ⟨claim_C3_merge_condition_amended.1 noValueTransport defaultOpts [] _ rfl,
   claim_C3_merge_condition_amended.2 noValueTransport defaultOpts [("a", .num 1)] rfl rfl rfl⟩

/-- One iteration of the pagination loop against a transport that always
answers with another cursor-bearing single-item page. -/
theorem pagLoop_chain_step (v : JVal) (tr : Transport) (opts : ReqOptions)
    (htr : ∀ p o, tr p o = .ok (chainResp v)) (xs : List JVal) (pc : Nat) :
    pagLoop tr opts (some (.str chainLink)) (.arr xs) pc
      = if pc + 1 > 100 then .ok (.arr (xs ++ [v]), pc + 1)
        else pagLoop tr opts (some (.str chainLink)) (.arr (xs ++ [v])) (pc + 1) := by
  have htru : jsTruthy (JVal.str chainLink) = true := by decide
  have hne : (chainLink != "") = true := by decide
  have hparse : parseUrl (jsToStr (JVal.str chainLink)) = .ok ("/v1.0/next", []) := rfl
  have hval : jsGetField (chainPage v) "value" = some (.arr [v]) := rfl
  have hnl : jsGetField (chainPage v) "@odata.nextLink" = some (.str chainLink) := rfl
  rw [pagLoop]
  simp only [htru, hne, Bool.not_true, Bool.false_eq_true, if_false, hparse, htr, chainResp,
    jsonParse, hval, hnl, jsTruthy, jsIsArray, Bool.and_self, and_self, if_true, jsConcat]
  split
  · next h => exact absurd trivial h
  · split
    · next h => simp [h]
    · next h => simp [h]

/-- Against an unbounded chain of cursor-bearing single-item pages, the
pagination loop started at page count `pc ≤ 100` accumulates exactly
`101 - pc` more items and stops with the page counter at 101. -/
theorem pagLoop_chain (v : JVal) (tr : Transport) (opts : ReqOptions)
    (htr : ∀ p o, tr p o = .ok (chainResp v)) :
    ∀ (k pc : Nat) (xs : List JVal), 100 - pc = k → 1 ≤ pc → pc ≤ 100 →
      pagLoop tr opts (some (.str chainLink)) (.arr xs) pc
        = .ok (.arr (xs ++ List.replicate (101 - pc) v), 101) := by
  intro k
  induction k with
  | zero =>
    intro pc xs hk h1 h100
    have hpc : pc = 100 := by omega
    subst hpc
    rw [pagLoop_chain_step v tr opts htr, if_pos (by omega)]
    norm_num [List.replicate_one]
  | succ k ih =>
    intro pc xs hk h1 h100
    rw [pagLoop_chain_step v tr opts htr, if_neg (by omega)]
    rw [ih (pc + 1) (xs ++ [v]) (by omega) (by omega) (by omega)]
    have h3 : 101 - (pc + 1) = 100 - pc := by omega
    have h2 : 101 - pc = (100 - pc) + 1 := by omega
    rw [h3, h2, List.append_assoc, List.singleton_append, ← List.replicate_succ]

/-- The whole pagination block against an unbounded cursor chain: the merge
keeps the first page's items plus one item per follow-up page, stopping after
the page counter exceeds 100 — 101 accumulated items in all — and removes
the cursor. -/
theorem paginate_chain (v : JVal) (tr : Transport) (opts : ReqOptions)
    (htr : ∀ p o, tr p o = .ok (chainResp v)) :
    paginate tr opts (.json (chainPage v))
      = .ok (.json (.obj [("value", .arr (List.replicate 101 v))])) := by
  have hloop := pagLoop_chain v tr opts htr 99 1 [v] (by omega) (by omega) (by omega)
  have hrep : [v] ++ List.replicate (101 - 1) v = List.replicate 101 v := by
    rw [List.singleton_append]
    norm_num [← List.replicate_succ]
  rw [hrep] at hloop
  have hval : jsGetField (chainPage v) "value" = some (.arr [v]) := rfl
  have hnl : jsGetField (chainPage v) "@odata.nextLink" = some (.str chainLink) := rfl
  unfold paginate
  simp only [jsonParse, Bind.bind, Except.bind, hval, hnl, jsTruthy, if_true, hloop]
  simp [chainPage, jsSetField, recordSet, jsGetField, recordGet, jsDeleteField,
    recordDelete, pure, Except.pure]

/-- The pagination loop's page counter never exceeds 101 when started at or
below 100, whatever the transport returns: the cap check stops the loop. -/
theorem pagLoop_counter_bound (tr : Transport) (opts : ReqOptions) :
    ∀ (k : Nat) (nl : Option JVal) (items : JVal) (pc : Nat) (items' : JVal) (pc' : Nat),
      101 - pc = k → pc ≤ 100 →
      pagLoop tr opts nl items pc = .ok (items', pc') → pc' ≤ 101 := by
  intro k
  induction k with
  | zero =>
    intro nl items pc items' pc' hk hpc h
    omega
  | succ k ih =>
    intro nl items pc items' pc' hk hpc h
    rw [pagLoop.eq_def] at h
    repeat' split at h
    all_goals try (simp only [Except.ok.injEq, Prod.mk.injEq] at h)
    all_goals try (obtain ⟨h1, h2⟩ := h)
    all_goals try omega
    all_goals repeat' split at h
    all_goals try (simp only [Except.ok.injEq, Prod.mk.injEq] at h)
    all_goals try (obtain ⟨h1, h2⟩ := h)
    all_goals try (refine ih _ _ (pc + 1) _ _ ?_ ?_ h)
    all_goals omega

/-- Counterexample to C2 as stated: against an unbounded chain of one-item
pages, the accumulated `value` holds 101 items — one per accumulated page — so
101 pages' value arrays are merged, not at most 100: the cap check
(`pageCount > 100` *after* the increment) runs only after the 101st page has
already been concatenated. No error is raised. -/
theorem claim_C2_counterexample :
    paginate chainTransport defaultOpts (.json (chainPage (.num 1)))
      = .ok (.json (.obj [("value", .arr (List.replicate 101 (.num 1)))]))
    ∧ (List.replicate 101 (JVal.num 1)).length = 101
    ∧ ¬ (List.replicate 101 (JVal.num 1)).length ≤ 100 :=
  ⟨paginate_chain (.num 1) chainTransport defaultOpts (fun _ _ => rfl),
   by simp, by simp⟩

/-- C2 amended: the pagination loop stops once the page counter exceeds the
cap of 100 — reaching the cap raises no error — but the check runs after the
fetched page has been merged, so up to 101 pages' value arrays (the first
page plus 100 follow-ups) are accumulated: an unbounded chain of one-item
pages yields exactly 101 items, and the page counter never passes 101. -/
theorem claim_C2_pagination_cap_amended :
    (∀ (v : JVal) (tr : Transport) (opts : ReqOptions),
      (∀ p o, tr p o = .ok (chainResp v)) →
      paginate tr opts (.json (chainPage v))
        = .ok (.json (.obj [("value", .arr (List.replicate 101 v))])))
    ∧ (∀ (tr : Transport) (opts : ReqOptions) (nl : Option JVal) (items : JVal)
        (pc : Nat) (items' : JVal) (pc' : Nat), pc ≤ 100 →
        pagLoop tr opts nl items pc = .ok (items', pc') → pc' ≤ 101) :=
  ⟨fun v tr opts htr => paginate_chain v tr opts htr,
   fun tr opts nl items pc items' pc' hpc h =>
     pagLoop_counter_bound tr opts (101 - pc) nl items pc items' pc' rfl hpc h⟩

/-- Witness for the amended C2: the concrete unbounded chain, and the counter
bound at a cursor-free loop start. -/
theorem claim_C2_pagination_cap_amended_witness :
    paginate chainTransport defaultOpts (.json (chainPage (.num 1)))
      = .ok (.json (.obj [("value", .arr (List.replicate 101 (.num 1)))]))
    ∧ (1 : Nat) ≤ 101 :=
  ⟨claim_C2_pagination_cap_amended.1 (.num 1) chainTransport defaultOpts (fun _ _ => rfl),
   claim_C2_pagination_cap_amended.2 chainTransport defaultOpts none (.arr []) 1 (.arr []) 1
     (by omega) (pagLoop_none chainTransport defaultOpts (.arr []) 1)⟩
